import Mathlib

/-!
Verification development for the lyricface typographic-mosaic renderer.

The definitions below are a shallow embedding of the rendering core found in
the repository's page component: the text normalisation pipeline
(`textCharacters`), the two-tap pixel sampler, the intensity / styling
computation, the surface-dimension arithmetic and the grid traversal of
`renderToCanvas`.  JavaScript numbers are modelled as `ℚ` where the code only
performs field arithmetic, comparisons, `Math.floor` and `Math.round`, and as
`ℝ` where `Math.pow` with a fractional exponent is involved.  Byte buffers
(`Uint8ClampedArray`) are modelled as `List ℕ`, with out-of-range reads
yielding the code's `?? 0` fallback.
-/

set_option maxHeartbeats 1000000

namespace LyricFace

/-- Generic clamp helper from the source: `Math.min(Math.max(value, lo), hi)`. -/
def clamp (value lo hi : ℝ) : ℝ := min (max value lo) hi

/-- Membership in the JS regex class `\s`, restricted to the ASCII whitespace
characters (space, tab, newline, carriage return, vertical tab, form feed). -/
def isWS (c : Char) : Bool :=
  c == ' ' || c == '\t' || c == '\n' || c == '\r' || c == '\x0b' || c == '\x0c'

/-- Helper for collapsing whitespace runs; the flag records whether the
previously emitted character came from a whitespace run. -/
def collapseAux : List Char → Bool → List Char
  | [], _ => []
  | c :: rest, prevWS =>
    if isWS c then
      if prevWS then collapseAux rest true else ' ' :: collapseAux rest true
    else c :: collapseAux rest false

/-- The source's `lyrics.replace(/\s+/g, " ")`: every maximal whitespace run
becomes a single space. -/
def collapseWS (l : List Char) : List Char := collapseAux l false

/-- JS `String.prototype.trim`: drop whitespace from both ends. -/
def trimWS (l : List Char) : List Char :=
  ((l.dropWhile isWS).reverse.dropWhile isWS).reverse

/-- The source's `lyrics.replace(/\s+/g, " ").trim()`. -/
def sanitize (l : List Char) : List Char := trimWS (collapseWS l)

/-- The source's `textCharacters` memo: the sanitized character list, or the
single placeholder bullet when it is empty. -/
def textCharacters (lyrics : List Char) : List Char :=
  let s := sanitize lyrics
  if 0 < s.length then s else ['•']

/-- The glyph picked for the cell with running index `i`:
`textCharacters[charIndex % textCharacters.length]`, with a newline replaced
by a space (source lines computing `nextChar` and `safeChar`).  The `getD`
default is never reached because the stream is nonempty and the index is
reduced modulo its length. -/
def glyphAt (lyrics : List Char) (i : ℕ) : Char :=
  let tc := textCharacters lyrics
  let c := tc.getD (i % tc.length) ' '
  if c = '\n' then ' ' else c

/-- The source's `Math.min(limit - 1, Math.max(0, Math.floor(v)))` used for
both sample coordinates. -/
def sampleCoord (limit : ℕ) (v : ℚ) : ℤ := min ((limit : ℤ) - 1) (max 0 ⌊v⌋)

/-- `pixelIndex = (sampleY * baseWidth + sampleX) * 4`. -/
def pixelIndexOf (w h : ℕ) (x y : ℚ) : ℤ :=
  (sampleCoord h y * w + sampleCoord w x) * 4

/-- `altIndex = (Math.min(h-1, sampleY+1) * w + Math.min(w-1, sampleX+1)) * 4`. -/
def altIndexOf (w h : ℕ) (x y : ℚ) : ℤ :=
  (min ((h : ℤ) - 1) (sampleCoord h y + 1) * w +
    min ((w : ℤ) - 1) (sampleCoord w x + 1)) * 4

/-- Read `imageData[i] ?? 0`: an index outside the buffer (negative or past
the end) yields `undefined`, which the code coalesces to `0`. -/
def readByte (buf : List ℕ) (i : ℤ) : ℕ :=
  if 0 ≤ i then (buf.get? i.toNat).getD 0 else 0

/-- One averaged channel of the two-tap sample; `c` is the channel offset
(0 = red, 1 = green, 2 = blue). -/
def sampleChannel (buf : List ℕ) (w h : ℕ) (x y : ℚ) (c : ℕ) : ℚ :=
  ((readByte buf (pixelIndexOf w h x y + c) : ℚ) +
    (readByte buf (altIndexOf w h x y + c) : ℚ)) / 2

/-- The `(r, g, b)` triple sampled for a cell (source lines computing
`r`, `g`, `b` from `pixelIndex` and `altIndex`), at integral surface
dimensions. -/
def sampleRGB (buf : List ℕ) (w h : ℕ) (x y : ℚ) : ℚ × ℚ × ℚ :=
  (sampleChannel buf w h x y 0, sampleChannel buf w h x y 1,
    sampleChannel buf w h x y 2)

/-- The clamp of the traversal as performed on raw JS numbers:
`Math.min(limit - 1, Math.max(0, Math.floor(v)))` where `limit` is the
unfloored `baseWidth` or `baseHeight`.  `baseHeight` is fractional whenever
`scale` is fractional (e.g. a fractional `devicePixelRatio`), so the result
can be fractional. -/
def sampleCoordQ (limit v : ℚ) : ℚ := min (limit - 1) (max 0 (⌊v⌋ : ℚ))

/-- `pixelIndex` over raw JS numbers. -/
def pixelIndexQ (w h x y : ℚ) : ℚ :=
  (sampleCoordQ h y * w + sampleCoordQ w x) * 4

/-- `altIndex` over raw JS numbers. -/
def altIndexQ (w h x y : ℚ) : ℚ :=
  (min (h - 1) (sampleCoordQ h y + 1) * w +
    min (w - 1) (sampleCoordQ w x + 1)) * 4

/-- `imageData[i] ?? 0` at a JS-number index: a fractional index (one not
equal to its own floor) reads `undefined` (coalesced to `0`); an integral
index reads the array with the `?? 0` fallback as `readByte` does. -/
def readByteQ (buf : List ℕ) (i : ℚ) : ℕ :=
  if (⌊i⌋ : ℚ) = i then readByte buf ⌊i⌋ else 0

/-- One averaged channel of the two-tap sample over raw JS numbers. -/
def sampleChannelQ (buf : List ℕ) (w h x y : ℚ) (c : ℕ) : ℚ :=
  ((readByteQ buf (pixelIndexQ w h x y + c) : ℚ) +
    (readByteQ buf (altIndexQ w h x y + c) : ℚ)) / 2

/-- The `(r, g, b)` triple sampled for a cell over raw JS numbers (the form
actually used inside the traversal, where the clamp height is the unfloored
`baseHeight`). -/
def sampleRGBQ (buf : List ℕ) (w h x y : ℚ) : ℚ × ℚ × ℚ :=
  (sampleChannelQ buf w h x y 0, sampleChannelQ buf w h x y 1,
    sampleChannelQ buf w h x y 2)

/-- `luminance = 0.2126 * r + 0.7152 * g + 0.0722 * b`. -/
def luminanceOf (r g b : ℝ) : ℝ := 0.2126 * r + 0.7152 * g + 0.0722 * b

/-- `contrasted = clamp((luminance - 128) * settings.contrast + 128, 0, 255)`. -/
def contrastedOf (r g b contrast : ℝ) : ℝ :=
  clamp ((luminanceOf r g b - 128) * contrast + 128) 0 255

/-- `intensity = Math.pow(1 - contrasted / 255, 0.65)`. -/
noncomputable def intensityOf (r g b contrast : ℝ) : ℝ :=
  (1 - contrastedOf r g b contrast / 255) ^ (0.65 : ℝ)

/-- `weight = Math.round(300 + intensity * 600)`. -/
noncomputable def weightOf (r g b contrast : ℝ) : ℤ :=
  round (300 + intensityOf r g b contrast * 600)

/-- `size = scaledFont * (0.85 + intensity * 0.8)` with
`scaledFont = settings.fontSize * scale`. -/
noncomputable def glyphSizeOf (fontSize scale r g b contrast : ℝ) : ℝ :=
  (fontSize * scale) * (0.85 + intensityOf r g b contrast * 0.8)

/-- `alpha = 0.45 + intensity * 0.55`. -/
noncomputable def alphaOf (r g b contrast : ℝ) : ℝ :=
  0.45 + intensityOf r g b contrast * 0.55

/-- The fill colour of a glyph: the fixed dark gray `rgba(26, 26, 26, alpha)`
in monochrome mode, otherwise the rounded sampled channels
`rgba(Math.round(r), Math.round(g), Math.round(b), alpha)`. -/
def colorOf (monochrome : Bool) (r g b : ℚ) : ℤ × ℤ × ℤ :=
  if monochrome then (26, 26, 26) else (round r, round g, round b)

/-- The `CanvasSettings` record of the source. -/
structure CanvasSettings where
  fontSize : ℚ
  spacing : ℚ
  contrast : ℚ
  monochrome : Bool
  underlay : ℚ

/-- The per-cell styling tuple the loop body feeds into `ctx.font` and
`ctx.fillStyle`. -/
structure CellStyle where
  weight : ℤ
  size : ℝ
  alpha : ℝ
  color : ℤ × ℤ × ℤ

/-- The full per-cell styling computation of the loop body, from the sampled
`(r, g, b)` and the settings. -/
noncomputable def cellStyle (s : CanvasSettings) (scale r g b : ℚ) : CellStyle :=
  ⟨weightOf (r : ℝ) (g : ℝ) (b : ℝ) (s.contrast : ℝ),
    glyphSizeOf (s.fontSize : ℝ) (scale : ℝ) (r : ℝ) (g : ℝ) (b : ℝ) (s.contrast : ℝ),
    alphaOf (r : ℝ) (g : ℝ) (b : ℝ) (s.contrast : ℝ),
    colorOf s.monochrome r g b⟩

/-- The resize handler:
`previewWidth = Math.max(Math.min(container.clientWidth, 820), 280)`; DOM
`clientWidth` is an integer, so every preview width the program can hold is a
natural number (the initial state is `720`). -/
def previewWidthOf (clientWidth : ℕ) : ℕ := max (min clientWidth 820) 280

/-- `baseWidth = Math.floor(previewWidth * scale)`. -/
def baseWidthOf (pw : ℕ) (scale : ℚ) : ℤ := ⌊(pw : ℚ) * scale⌋

/-- `baseHeight = Math.floor(previewWidth / aspect) * scale` with
`aspect = imageSize.width / imageSize.height`. -/
def baseHeightOf (pw imgW imgH : ℕ) (scale : ℚ) : ℚ :=
  (⌊(pw : ℚ) / ((imgW : ℚ) / (imgH : ℚ))⌋ : ℚ) * scale

/-- Abstract drawing commands issued against the 2D context, in issue order.
`fillRect` and `fillText` carry their fill colour; `drawImage` carries the
global alpha in effect (the underlay pass wraps the draw in
`save / globalAlpha := underlay / restore`).  The `#FAFAFA` background is the
triple `(250, 250, 250)`. -/
inductive DrawOp where
  | setSize : ℤ → ℚ → DrawOp
  | clearRect : ℤ → ℚ → DrawOp
  | fillRect : ℤ × ℤ × ℤ → ℤ → ℚ → DrawOp
  | drawImage : ℚ → ℤ → ℚ → DrawOp
  | fillText : CellStyle → Char → ℚ → ℚ → DrawOp

/-- Number of iterations of `for (v = 0; v < bound; v += step)` for a strictly
positive step (the source only reaches the loop with positive steps; a
non-positive step would not terminate and is mapped to zero iterations). -/
def stepsCount (bound step : ℚ) : ℕ :=
  if 0 < step then (⌈bound / step⌉).toNat else 0

/-- Shallow embedding of `renderToCanvas`: the guard on a missing canvas,
missing image or zero image dimension returns without issuing any command;
otherwise the surface is sized, cleared, filled with `#FAFAFA`, the source
image is drawn at global alpha `settings.underlay`, and the grid traversal
emits one `fillText` per cell with a running character index.  `buf` is the
RGBA8 data of the image scaled to the surface (the `getImageData` result,
whose dimensions are the truncated `baseWidth`/`baseHeight`); sampling clamps
against the unfloored `baseWidth`/`baseHeight` numbers, exactly as the
source, so with a fractional `baseHeight` the sample indices can be
fractional and miss the buffer.  The 2D contexts themselves are modelled as
always available. -/
noncomputable def renderToCanvas (canvas image : Option Unit) (imgW imgH pw : ℕ)
    (s : CanvasSettings) (scale detailBoost : ℚ) (buf : List ℕ)
    (lyrics : List Char) : List DrawOp :=
  if canvas = none ∨ image = none ∨ imgW = 0 ∨ imgH = 0 then [] else
    let bw := baseWidthOf pw scale
    let bh := baseHeightOf pw imgW imgH scale
    let scaledFont := s.fontSize * scale
    let detailFactor := max 0.5 (min detailBoost 1)
    let stepX := scaledFont * s.spacing * detailFactor
    let stepY := scaledFont * s.spacing * 1.4 * detailFactor
    let cols := stepsCount (bw : ℚ) stepX
    let rows := stepsCount bh stepY
    DrawOp.setSize bw bh :: DrawOp.clearRect bw bh ::
    DrawOp.fillRect (250, 250, 250) bw bh ::
    DrawOp.drawImage s.underlay bw bh ::
    (List.range rows).flatMap (fun (ry : ℕ) =>
      (List.range cols).map (fun (rx : ℕ) =>
        let x := (rx : ℚ) * stepX
        let y := (ry : ℚ) * stepY
        let rgb := sampleRGBQ buf (bw : ℚ) bh x y
        DrawOp.fillText (cellStyle s scale rgb.1 rgb.2.1 rgb.2.2)
          (glyphAt lyrics (ry * cols + rx)) x y))

/-- RGBA8 buffer of a uniform gray `(128, 128, 128)` image of the given
surface dimensions: every colour channel is `128`, every alpha byte `255`. -/
def uniformGrayBuf (w h : ℕ) : List ℕ :=
  (List.range (4 * w * h)).map (fun i => if i % 4 = 3 then 255 else 128)

/-! Helper lemmas. -/

theorem sampleCoord_nonneg (limit : ℕ) (hl : 1 ≤ limit) (v : ℚ) :
    0 ≤ sampleCoord limit v := by
  unfold sampleCoord
  have : (1 : ℤ) ≤ (limit : ℤ) := by exact_mod_cast hl
  omega

theorem sampleCoord_le (limit : ℕ) (v : ℚ) :
    sampleCoord limit v ≤ (limit : ℤ) - 1 := min_le_left _ _

theorem altCoord_nonneg (limit : ℕ) (hl : 1 ≤ limit) (v : ℚ) :
    0 ≤ min ((limit : ℤ) - 1) (sampleCoord limit v + 1) := by
  have h0 := sampleCoord_nonneg limit hl v
  have : (1 : ℤ) ≤ (limit : ℤ) := by exact_mod_cast hl
  omega

theorem altCoord_le (limit : ℕ) (v : ℚ) :
    min ((limit : ℤ) - 1) (sampleCoord limit v + 1) ≤ (limit : ℤ) - 1 :=
  min_le_left _ _

theorem cellIndex_bounds (w h : ℕ) (hw : 1 ≤ w) (hh : 1 ≤ h) (sx sy : ℤ)
    (hsx0 : 0 ≤ sx) (hsx1 : sx ≤ (w : ℤ) - 1)
    (hsy0 : 0 ≤ sy) (hsy1 : sy ≤ (h : ℤ) - 1) (c : ℕ) (hc : c ≤ 2) :
    0 ≤ (sy * w + sx) * 4 + (c : ℤ) ∧
      (sy * w + sx) * 4 + (c : ℤ) < 4 * w * h := by
  have hw0 : (0 : ℤ) ≤ (w : ℤ) := by positivity
  have hc2 : (c : ℤ) ≤ 2 := by exact_mod_cast hc
  have hc0 : (0 : ℤ) ≤ (c : ℤ) := by positivity
  have hmul : sy * (w : ℤ) ≤ ((h : ℤ) - 1) * w := mul_le_mul_of_nonneg_right hsy1 hw0
  have hmul0 : 0 ≤ sy * (w : ℤ) := mul_nonneg hsy0 hw0
  constructor
  · nlinarith
  · nlinarith

theorem pixelIndex_bounds (w h : ℕ) (hw : 1 ≤ w) (hh : 1 ≤ h) (x y : ℚ)
    (c : ℕ) (hc : c ≤ 2) :
    0 ≤ pixelIndexOf w h x y + (c : ℤ) ∧
      pixelIndexOf w h x y + (c : ℤ) < 4 * w * h := by
  unfold pixelIndexOf
  exact cellIndex_bounds w h hw hh _ _ (sampleCoord_nonneg w hw x)
    (sampleCoord_le w x) (sampleCoord_nonneg h hh y) (sampleCoord_le h y) c hc

theorem altIndex_bounds (w h : ℕ) (hw : 1 ≤ w) (hh : 1 ≤ h) (x y : ℚ)
    (c : ℕ) (hc : c ≤ 2) :
    0 ≤ altIndexOf w h x y + (c : ℤ) ∧
      altIndexOf w h x y + (c : ℤ) < 4 * w * h := by
  unfold altIndexOf
  exact cellIndex_bounds w h hw hh _ _ (altCoord_nonneg w hw x)
    (altCoord_le w x) (altCoord_nonneg h hh y) (altCoord_le h y) c hc

theorem readByte_le (buf : List ℕ) (hbytes : ∀ v ∈ buf, v ≤ 255) (i : ℤ) :
    readByte buf i ≤ 255 := by
  unfold readByte
  split
  · cases hget : buf.get? i.toNat with
    | none => simp [hget]
    | some v => simpa [hget] using hbytes v (List.get?_mem hget)
  · omega

theorem readByte_in_bounds (buf : List ℕ) (i : ℤ) (h0 : 0 ≤ i)
    (hlt : (i.toNat) < buf.length) :
    buf.get? i.toNat = some (readByte buf i) := by
  unfold readByte
  rw [if_pos h0, List.get?_eq_get hlt]
  rfl

theorem uniformGrayBuf_length (w h : ℕ) :
    (uniformGrayBuf w h).length = 4 * w * h := by
  simp [uniformGrayBuf]

theorem uniformGrayBuf_read (w h : ℕ) (i : ℤ) (h0 : 0 ≤ i)
    (hlt : i < 4 * (w : ℤ) * h) (hmod : i % 4 ≠ 3) :
    readByte (uniformGrayBuf w h) i = 128 := by
  unfold readByte uniformGrayBuf
  rw [if_pos h0]
  have hwh : ((4 * w * h : ℕ) : ℤ) = 4 * (w : ℤ) * (h : ℤ) := by push_cast; ring
  have hi : i.toNat < 4 * w * h := by omega
  rw [List.get?_map, List.get?_range hi]
  have hm : i.toNat % 4 ≠ 3 := by omega
  simp [hm]

theorem uniformGray_sample (w h : ℕ) (hw : 1 ≤ w) (hh : 1 ≤ h) (x y : ℚ) :
    sampleRGB (uniformGrayBuf w h) w h x y = (128, 128, 128) := by
  have hchan : ∀ c : ℕ, c ≤ 2 →
      sampleChannel (uniformGrayBuf w h) w h x y c = 128 := by
    intro c hc
    obtain ⟨hp0, hp1⟩ := pixelIndex_bounds w h hw hh x y c hc
    obtain ⟨ha0, ha1⟩ := altIndex_bounds w h hw hh x y c hc
    have hc' : ((c : ℤ)) ≤ 2 := by exact_mod_cast hc
    have hpmod : (pixelIndexOf w h x y + (c : ℤ)) % 4 ≠ 3 := by
      unfold pixelIndexOf
      omega
    have hamod : (altIndexOf w h x y + (c : ℤ)) % 4 ≠ 3 := by
      unfold altIndexOf
      omega
    unfold sampleChannel
    rw [uniformGrayBuf_read w h _ hp0 hp1 hpmod,
      uniformGrayBuf_read w h _ ha0 ha1 hamod]
    norm_num
  unfold sampleRGB
  rw [hchan 0 (by omega), hchan 1 (by omega), hchan 2 (by omega)]

/-! Bounds for the mid-gray intensity value `(127/255) ^ 0.65`. -/

theorem grayPow_sq :
    ((127 / 255 : ℝ) ^ (0.65 : ℝ)) ^ (20 : ℕ) = (127 / 255 : ℝ) ^ (13 : ℕ) := by
  have hb : (0 : ℝ) ≤ 127 / 255 := by norm_num
  rw [← Real.rpow_natCast ((127 / 255 : ℝ) ^ (0.65 : ℝ)) 20, ← Real.rpow_mul hb]
  rw [show (0.65 : ℝ) * ((20 : ℕ) : ℝ) = ((13 : ℕ) : ℝ) by push_cast; norm_num]
  rw [Real.rpow_natCast]

theorem grayPow_lb : (0.6355 : ℝ) < (127 / 255 : ℝ) ^ (0.65 : ℝ) := by
  have h20 : (0.6355 : ℝ) ^ (20 : ℕ) < ((127 / 255 : ℝ) ^ (0.65 : ℝ)) ^ (20 : ℕ) := by
    rw [grayPow_sq]
    norm_num
  exact lt_of_pow_lt_pow_left₀ 20 (Real.rpow_nonneg (by norm_num) _) h20

theorem grayPow_ub : (127 / 255 : ℝ) ^ (0.65 : ℝ) < 0.6358 := by
  have h20 : ((127 / 255 : ℝ) ^ (0.65 : ℝ)) ^ (20 : ℕ) < (0.6358 : ℝ) ^ (20 : ℕ) := by
    rw [grayPow_sq]
    norm_num
  exact lt_of_pow_lt_pow_left₀ 20 (by norm_num) h20

theorem contrasted_gray : contrastedOf 128 128 128 1 = 128 := by
  unfold contrastedOf luminanceOf clamp
  norm_num

theorem intensity_gray_eq :
    intensityOf 128 128 128 1 = (127 / 255 : ℝ) ^ (0.65 : ℝ) := by
  unfold intensityOf
  rw [contrasted_gray]
  norm_num

/-! Claim theorems. -/

/-- Claim C7: for every input text and every index `i ≥ 0`, the glyph
sequencer is cyclic with period `N`, the length of the normalized glyph
stream: `at(i) = stream[i mod N]` (with a newline at that position
substituted by a space), hence `at(i) = at(i + N)`. -/
theorem c7_sequencer_cyclic (lyrics : List Char) (i : ℕ) :
    glyphAt lyrics i =
      (if (textCharacters lyrics).getD (i % (textCharacters lyrics).length) ' ' = '\n'
        then ' '
        else (textCharacters lyrics).getD (i % (textCharacters lyrics).length) ' ') ∧
    glyphAt lyrics (i + (textCharacters lyrics).length) = glyphAt lyrics i := by
  constructor
  · rfl
  · unfold glyphAt
    simp only [Nat.add_mod_right]

/-- Claim C8: for every input text that becomes empty after collapsing
whitespace runs and trimming, the glyph stream is the single-character
placeholder bullet, and `at(i)` is that bullet for every index `i ≥ 0`. -/
theorem c8_placeholder (lyrics : List Char) (hempty : sanitize lyrics = []) :
    textCharacters lyrics = ['•'] ∧ ∀ i : ℕ, glyphAt lyrics i = '•' := by
  have htc : textCharacters lyrics = ['•'] := by
    unfold textCharacters
    rw [hempty]
    rfl
  refine ⟨htc, fun i => ?_⟩
  unfold glyphAt
  rw [htc]
  simp [Nat.mod_one]

/-- Witness for C8 at the concrete whitespace-only input. -/
theorem c8_witness :
    sanitize [' ', '\n'] = [] ∧
    textCharacters [' ', '\n'] = ['•'] ∧ glyphAt [' ', '\n'] 7 = '•' :=
  ⟨by decide, (c8_placeholder [' ', '\n'] (by decide)).1,
    (c8_placeholder [' ', '\n'] (by decide)).2 7⟩

/-- Claim C6: for any two renders that differ only in the monochrome setting,
every cell has identical alpha, glyph size and weight; the fill colour is the
fixed dark gray `(26, 26, 26)` when monochrome is set and the rounded sampled
colour otherwise. -/
theorem c6_monochrome_frame (fs sp ct u : ℚ) (m₁ m₂ : Bool) (scale r g b : ℚ) :
    (cellStyle ⟨fs, sp, ct, m₁, u⟩ scale r g b).alpha =
      (cellStyle ⟨fs, sp, ct, m₂, u⟩ scale r g b).alpha ∧
    (cellStyle ⟨fs, sp, ct, m₁, u⟩ scale r g b).size =
      (cellStyle ⟨fs, sp, ct, m₂, u⟩ scale r g b).size ∧
    (cellStyle ⟨fs, sp, ct, m₁, u⟩ scale r g b).weight =
      (cellStyle ⟨fs, sp, ct, m₂, u⟩ scale r g b).weight ∧
    (cellStyle ⟨fs, sp, ct, true, u⟩ scale r g b).color = (26, 26, 26) ∧
    (cellStyle ⟨fs, sp, ct, false, u⟩ scale r g b).color = (round r, round g, round b) :=
  ⟨rfl, rfl, rfl, rfl, rfl⟩

/-- Claim C9: a render invoked with a missing target surface, no loaded image,
or an image with a zero dimension issues no drawing command at all: the
surface is untouched and, the embedding being a total function, no exception
reaches the caller. -/
theorem c9_silent_noop (canvas image : Option Unit) (imgW imgH pw : ℕ)
    (s : CanvasSettings) (scale detailBoost : ℚ) (buf : List ℕ)
    (lyrics : List Char)
    (hpre : canvas = none ∨ image = none ∨ imgW = 0 ∨ imgH = 0) :
    renderToCanvas canvas image imgW imgH pw s scale detailBoost buf lyrics = [] := by
  unfold renderToCanvas
  rw [if_pos hpre]

/-- Witness for C9 at a concrete call with a missing canvas. -/
theorem c9_witness :
    ((none : Option Unit) = none ∨ (some () : Option Unit) = none ∨
      (10 : ℕ) = 0 ∨ (10 : ℕ) = 0) ∧
    renderToCanvas none (some ()) 10 10 720 ⟨18, 1.2, 1, false, 0.08⟩ 1 0.7 [] [] = [] :=
  ⟨Or.inl rfl,
    c9_silent_noop none (some ()) 10 10 720 ⟨18, 1.2, 1, false, 0.08⟩ 1 0.7 [] []
      (Or.inl rfl)⟩

/-- Claim C4: for every (integral) base width, image aspect ratio and scale
`s`, the surface has width `⌊baseWidth * s⌋` and height
`⌊baseWidth / aspect⌋ * s`, and the export surface at `s = 4` is exactly four
times the preview surface at `s = 1` in both dimensions. -/
theorem c4_surface_dims (pw imgW imgH : ℕ) (hW : 1 ≤ imgW) (hH : 1 ≤ imgH)
    (scale : ℚ) :
    baseWidthOf pw scale = ⌊(pw : ℚ) * scale⌋ ∧
    baseHeightOf pw imgW imgH scale =
      (⌊(pw : ℚ) / ((imgW : ℚ) / (imgH : ℚ))⌋ : ℚ) * scale ∧
    baseWidthOf pw 4 = 4 * baseWidthOf pw 1 ∧
    baseHeightOf pw imgW imgH 4 = 4 * baseHeightOf pw imgW imgH 1 := by
  refine ⟨rfl, rfl, ?_, ?_⟩
  · unfold baseWidthOf
    rw [mul_one, show ((pw : ℚ) * 4) = ((4 * pw : ℕ) : ℚ) by push_cast; ring,
      Int.floor_natCast, Int.floor_natCast]
    push_cast
    ring
  · unfold baseHeightOf
    ring

/-- Witness for C4 at a concrete preview width, image size and scale. -/
theorem c4_witness :
    1 ≤ 100 ∧ 1 ≤ 50 ∧
    (baseWidthOf 720 2 = ⌊(720 : ℚ) * 2⌋ ∧
     baseHeightOf 720 100 50 2 =
       (⌊(720 : ℚ) / ((100 : ℚ) / (50 : ℚ))⌋ : ℚ) * 2 ∧
     baseWidthOf 720 4 = 4 * baseWidthOf 720 1 ∧
     baseHeightOf 720 100 50 4 = 4 * baseHeightOf 720 100 50 1) :=
  ⟨by decide, by decide, c4_surface_dims 720 100 50 (by decide) (by decide) 2⟩

/-- Claim C5: for every grid coordinate `(x, y)` (grid coordinates are
nonnegative) and surface dimensions `w, h ≥ 1`, the sampler floors and clamps
`(x, y)` into `[0, w-1] × [0, h-1]`, clamps the diagonal neighbour
`(x+1, y+1)` the same way, and returns the channel-wise average of the two
RGBA8 samples, each channel lying in `[0, 255]`. -/
theorem c5_sampler_clamp_average (w h : ℕ) (hw : 1 ≤ w) (hh : 1 ≤ h)
    (x y : ℚ) (hx : 0 ≤ x) (hy : 0 ≤ y) (buf : List ℕ)
    (hbytes : ∀ v ∈ buf, v ≤ 255) :
    (0 ≤ sampleCoord w x ∧ sampleCoord w x ≤ (w : ℤ) - 1) ∧
    (0 ≤ sampleCoord h y ∧ sampleCoord h y ≤ (h : ℤ) - 1) ∧
    min ((w : ℤ) - 1) (sampleCoord w x + 1) = sampleCoord w (x + 1) ∧
    min ((h : ℤ) - 1) (sampleCoord h y + 1) = sampleCoord h (y + 1) ∧
    sampleRGB buf w h x y =
      (((readByte buf (pixelIndexOf w h x y) : ℚ) +
          (readByte buf (altIndexOf w h x y) : ℚ)) / 2,
        ((readByte buf (pixelIndexOf w h x y + 1) : ℚ) +
          (readByte buf (altIndexOf w h x y + 1) : ℚ)) / 2,
        ((readByte buf (pixelIndexOf w h x y + 2) : ℚ) +
          (readByte buf (altIndexOf w h x y + 2) : ℚ)) / 2) ∧
    (0 ≤ (sampleRGB buf w h x y).1 ∧ (sampleRGB buf w h x y).1 ≤ 255) ∧
    (0 ≤ (sampleRGB buf w h x y).2.1 ∧ (sampleRGB buf w h x y).2.1 ≤ 255) ∧
    (0 ≤ (sampleRGB buf w h x y).2.2 ∧ (sampleRGB buf w h x y).2.2 ≤ 255) := by
  have hsecond : ∀ (limit : ℕ) (v : ℚ), 1 ≤ limit → 0 ≤ v →
      min ((limit : ℤ) - 1) (sampleCoord limit v + 1) = sampleCoord limit (v + 1) := by
    intro limit v hl hv
    unfold sampleCoord
    rw [Int.floor_add_one]
    have h1 : (1 : ℤ) ≤ (limit : ℤ) := by exact_mod_cast hl
    have h0 : 0 ≤ ⌊v⌋ := Int.floor_nonneg.mpr hv
    omega
  have hchan : ∀ c : ℕ, 0 ≤ sampleChannel buf w h x y c ∧
      sampleChannel buf w h x y c ≤ 255 := by
    intro c
    unfold sampleChannel
    have ha := readByte_le buf hbytes (pixelIndexOf w h x y + c)
    have hb := readByte_le buf hbytes (altIndexOf w h x y + c)
    have ha' : ((readByte buf (pixelIndexOf w h x y + c) : ℚ)) ≤ 255 := by
      exact_mod_cast ha
    have hb' : ((readByte buf (altIndexOf w h x y + c) : ℚ)) ≤ 255 := by
      exact_mod_cast hb
    have ha0 : (0 : ℚ) ≤ (readByte buf (pixelIndexOf w h x y + c) : ℚ) := by positivity
    have hb0 : (0 : ℚ) ≤ (readByte buf (altIndexOf w h x y + c) : ℚ) := by positivity
    constructor <;> linarith
  refine ⟨⟨sampleCoord_nonneg w hw x, sampleCoord_le w x⟩,
    ⟨sampleCoord_nonneg h hh y, sampleCoord_le h y⟩,
    hsecond w x hw hx, hsecond h y hh hy, ?_, hchan 0, hchan 1, hchan 2⟩
  unfold sampleRGB sampleChannel
  norm_num

/-- Witness for C5 at a concrete surface, coordinate and buffer. -/
theorem c5_witness :
    1 ≤ 2 ∧ (0 : ℚ) ≤ 3 / 2 ∧ (0 : ℚ) ≤ 1 / 2 ∧ (∀ v ∈ [7, 250, 0, 255, 9, 10, 11, 255], v ≤ 255) ∧
    ((0 ≤ sampleCoord 2 (3 / 2 : ℚ) ∧ sampleCoord 2 (3 / 2 : ℚ) ≤ (2 : ℤ) - 1) ∧
    (0 ≤ sampleCoord 1 (1 / 2 : ℚ) ∧ sampleCoord 1 (1 / 2 : ℚ) ≤ (1 : ℤ) - 1) ∧
    min ((2 : ℤ) - 1) (sampleCoord 2 (3 / 2 : ℚ) + 1) = sampleCoord 2 ((3 / 2 : ℚ) + 1) ∧
    min ((1 : ℤ) - 1) (sampleCoord 1 (1 / 2 : ℚ) + 1) = sampleCoord 1 ((1 / 2 : ℚ) + 1) ∧
    sampleRGB [7, 250, 0, 255, 9, 10, 11, 255] 2 1 (3 / 2) (1 / 2) =
      (((readByte [7, 250, 0, 255, 9, 10, 11, 255] (pixelIndexOf 2 1 (3 / 2) (1 / 2)) : ℚ) +
          (readByte [7, 250, 0, 255, 9, 10, 11, 255] (altIndexOf 2 1 (3 / 2) (1 / 2)) : ℚ)) / 2,
        ((readByte [7, 250, 0, 255, 9, 10, 11, 255] (pixelIndexOf 2 1 (3 / 2) (1 / 2) + 1) : ℚ) +
          (readByte [7, 250, 0, 255, 9, 10, 11, 255] (altIndexOf 2 1 (3 / 2) (1 / 2) + 1) : ℚ)) / 2,
        ((readByte [7, 250, 0, 255, 9, 10, 11, 255] (pixelIndexOf 2 1 (3 / 2) (1 / 2) + 2) : ℚ) +
          (readByte [7, 250, 0, 255, 9, 10, 11, 255] (altIndexOf 2 1 (3 / 2) (1 / 2) + 2) : ℚ)) / 2) ∧
    (0 ≤ (sampleRGB [7, 250, 0, 255, 9, 10, 11, 255] 2 1 (3 / 2) (1 / 2)).1 ∧
      (sampleRGB [7, 250, 0, 255, 9, 10, 11, 255] 2 1 (3 / 2) (1 / 2)).1 ≤ 255) ∧
    (0 ≤ (sampleRGB [7, 250, 0, 255, 9, 10, 11, 255] 2 1 (3 / 2) (1 / 2)).2.1 ∧
      (sampleRGB [7, 250, 0, 255, 9, 10, 11, 255] 2 1 (3 / 2) (1 / 2)).2.1 ≤ 255) ∧
    (0 ≤ (sampleRGB [7, 250, 0, 255, 9, 10, 11, 255] 2 1 (3 / 2) (1 / 2)).2.2 ∧
      (sampleRGB [7, 250, 0, 255, 9, 10, 11, 255] 2 1 (3 / 2) (1 / 2)).2.2 ≤ 255)) :=
  ⟨by decide, by norm_num, by norm_num, by decide,
    c5_sampler_clamp_average 2 1 (by decide) (by decide) (3 / 2) (1 / 2)
      (by norm_num) (by norm_num) [7, 250, 0, 255, 9, 10, 11, 255] (by decide)⟩

theorem sampleCoordQ_natCast (limit : ℕ) (v : ℚ) :
    sampleCoordQ (limit : ℚ) v = ((sampleCoord limit v : ℤ) : ℚ) := by
  unfold sampleCoordQ sampleCoord
  push_cast
  rfl

theorem pixelIndexQ_natCast (w h : ℕ) (x y : ℚ) :
    pixelIndexQ (w : ℚ) (h : ℚ) x y = ((pixelIndexOf w h x y : ℤ) : ℚ) := by
  unfold pixelIndexQ pixelIndexOf
  rw [sampleCoordQ_natCast, sampleCoordQ_natCast]
  push_cast
  ring

theorem altIndexQ_natCast (w h : ℕ) (x y : ℚ) :
    altIndexQ (w : ℚ) (h : ℚ) x y = ((altIndexOf w h x y : ℤ) : ℚ) := by
  unfold altIndexQ altIndexOf
  rw [sampleCoordQ_natCast, sampleCoordQ_natCast]
  push_cast
  ring

theorem readByteQ_intCast (buf : List ℕ) (i : ℤ) :
    readByteQ buf ((i : ℤ) : ℚ) = readByte buf i := by
  unfold readByteQ
  rw [Int.floor_intCast, if_pos rfl]

/-- Claim C10, amended: whenever the clamp dimensions are integers equal to
the buffer dimensions `w, h ≥ 1` (as happens for an integral scale, where
`baseHeight` is a whole number), both sample indices are integral and (with
channel offsets `0`–`2`) lie strictly within a `4 * w * h` buffer, so the
defensive `?? 0` fallbacks are never taken: every read returns an element
actually stored in the buffer.  With a fractional clamp height this fails
(see the counterexample). -/
theorem c10_amended_in_bounds (w h : ℕ) (hw : 1 ≤ w) (hh : 1 ≤ h)
    (buf : List ℕ) (hlen : buf.length = 4 * w * h) (x y : ℚ) (c : ℕ)
    (hc : c ≤ 2) :
    pixelIndexQ (w : ℚ) (h : ℚ) x y + (c : ℚ) =
      ((pixelIndexOf w h x y + (c : ℤ) : ℤ) : ℚ) ∧
    altIndexQ (w : ℚ) (h : ℚ) x y + (c : ℚ) =
      ((altIndexOf w h x y + (c : ℤ) : ℤ) : ℚ) ∧
    readByteQ buf (pixelIndexQ (w : ℚ) (h : ℚ) x y + (c : ℚ)) =
      readByte buf (pixelIndexOf w h x y + (c : ℤ)) ∧
    readByteQ buf (altIndexQ (w : ℚ) (h : ℚ) x y + (c : ℚ)) =
      readByte buf (altIndexOf w h x y + (c : ℤ)) ∧
    (0 ≤ pixelIndexOf w h x y + (c : ℤ) ∧
      pixelIndexOf w h x y + (c : ℤ) < 4 * w * h) ∧
    (0 ≤ altIndexOf w h x y + (c : ℤ) ∧
      altIndexOf w h x y + (c : ℤ) < 4 * w * h) ∧
    buf.get? (pixelIndexOf w h x y + (c : ℤ)).toNat =
      some (readByte buf (pixelIndexOf w h x y + (c : ℤ))) ∧
    buf.get? (altIndexOf w h x y + (c : ℤ)).toNat =
      some (readByte buf (altIndexOf w h x y + (c : ℤ))) := by
  obtain ⟨hp0, hp1⟩ := pixelIndex_bounds w h hw hh x y c hc
  obtain ⟨ha0, ha1⟩ := altIndex_bounds w h hw hh x y c hc
  have hwh : ((4 * w * h : ℕ) : ℤ) = 4 * (w : ℤ) * (h : ℤ) := by push_cast; ring
  have hpq : pixelIndexQ (w : ℚ) (h : ℚ) x y + (c : ℚ) =
      ((pixelIndexOf w h x y + (c : ℤ) : ℤ) : ℚ) := by
    rw [pixelIndexQ_natCast]
    push_cast
    ring
  have haq : altIndexQ (w : ℚ) (h : ℚ) x y + (c : ℚ) =
      ((altIndexOf w h x y + (c : ℤ) : ℤ) : ℚ) := by
    rw [altIndexQ_natCast]
    push_cast
    ring
  refine ⟨hpq, haq, ?_, ?_, ⟨hp0, hp1⟩, ⟨ha0, ha1⟩, ?_, ?_⟩
  · rw [hpq, readByteQ_intCast]
  · rw [haq, readByteQ_intCast]
  · exact readByte_in_bounds buf _ hp0 (by omega)
  · exact readByte_in_bounds buf _ ha0 (by omega)

/-- Counterexample to C10 as stated: with fractional preview scale `11/10`
(`devicePixelRatio` 1.1), preview width `720` and a 161×100 image, the
surface width is `792` and the clamp height is the fractional `491.7`
(`4917/10`), while the `getImageData` buffer has the truncated height `491`;
traversal row `114` (traversed, since the row count is `115`) has
`y = 114 * stepY = 491.568 < 491.7`, which clamps to the fractional
`sampleY = 490.7`, so the pixel index `7772688/5` is not an integer: the
read misses the buffer and the `?? 0` fallback is taken, returning `0`
although every byte of the buffer is `7`. -/
theorem c10_counterexample :
    baseWidthOf 720 (11 / 10) = 792 ∧
    baseHeightOf 720 161 100 (11 / 10) = 4917 / 10 ∧
    (5 : ℚ) * (11 / 10) * (4 / 5) * 1.4 * (max 0.5 (min (7 / 10) 1)) =
      539 / 125 ∧
    114 < stepsCount (4917 / 10) (539 / 125) ∧
    (61446 / 125 : ℚ) = 114 * (539 / 125) ∧
    (61446 / 125 : ℚ) < 4917 / 10 ∧
    (List.replicate 1555488 7).length = 4 * 792 * 491 ∧
    ((⌊pixelIndexQ 792 (4917 / 10) 0 (61446 / 125)⌋ : ℚ)) ≠
      pixelIndexQ 792 (4917 / 10) 0 (61446 / 125) ∧
    readByteQ (List.replicate 1555488 7)
      (pixelIndexQ 792 (4917 / 10) 0 (61446 / 125)) = 0 := by
  have hval : pixelIndexQ 792 (4917 / 10) 0 (61446 / 125) = 7772688 / 5 := by
    norm_num [pixelIndexQ, sampleCoordQ, min_def, max_def]
  have hsteps : 114 < stepsCount (4917 / 10) (539 / 125) := by
    unfold stepsCount
    rw [if_pos (by norm_num : (0 : ℚ) < 539 / 125)]
    have h : ⌈(4917 / 10 : ℚ) / (539 / 125)⌉ = 115 := by
      rw [Int.ceil_eq_iff]
      constructor <;> norm_num
    rw [h]
    norm_num
  refine ⟨by norm_num [baseWidthOf], by norm_num [baseHeightOf], by norm_num,
    hsteps, by norm_num, by norm_num, by norm_num, ?_, ?_⟩
  · rw [hval]
    norm_num
  · rw [readByteQ, hval]
    rw [if_neg (by norm_num)]

/-- Witness for the amended C10 at a concrete surface and buffer. -/
theorem c10_witness :
    1 ≤ 2 ∧ 1 ≤ 1 ∧ (List.replicate 8 (5 : ℕ)).length = 4 * 2 * 1 ∧ (1 : ℕ) ≤ 2 ∧
    (pixelIndexQ ((2 : ℕ) : ℚ) ((1 : ℕ) : ℚ) (9 / 4 : ℚ) (-3 : ℚ) + ((1 : ℕ) : ℚ) =
      ((pixelIndexOf 2 1 (9 / 4 : ℚ) (-3 : ℚ) + ((1 : ℕ) : ℤ) : ℤ) : ℚ) ∧
    altIndexQ ((2 : ℕ) : ℚ) ((1 : ℕ) : ℚ) (9 / 4 : ℚ) (-3 : ℚ) + ((1 : ℕ) : ℚ) =
      ((altIndexOf 2 1 (9 / 4 : ℚ) (-3 : ℚ) + ((1 : ℕ) : ℤ) : ℤ) : ℚ) ∧
    readByteQ (List.replicate 8 (5 : ℕ))
        (pixelIndexQ ((2 : ℕ) : ℚ) ((1 : ℕ) : ℚ) (9 / 4 : ℚ) (-3 : ℚ) + ((1 : ℕ) : ℚ)) =
      readByte (List.replicate 8 (5 : ℕ)) (pixelIndexOf 2 1 (9 / 4 : ℚ) (-3 : ℚ) + ((1 : ℕ) : ℤ)) ∧
    readByteQ (List.replicate 8 (5 : ℕ))
        (altIndexQ ((2 : ℕ) : ℚ) ((1 : ℕ) : ℚ) (9 / 4 : ℚ) (-3 : ℚ) + ((1 : ℕ) : ℚ)) =
      readByte (List.replicate 8 (5 : ℕ)) (altIndexOf 2 1 (9 / 4 : ℚ) (-3 : ℚ) + ((1 : ℕ) : ℤ)) ∧
    (0 ≤ pixelIndexOf 2 1 (9 / 4 : ℚ) (-3 : ℚ) + ((1 : ℕ) : ℤ) ∧
      pixelIndexOf 2 1 (9 / 4 : ℚ) (-3 : ℚ) + ((1 : ℕ) : ℤ) < 4 * 2 * 1) ∧
    (0 ≤ altIndexOf 2 1 (9 / 4 : ℚ) (-3 : ℚ) + ((1 : ℕ) : ℤ) ∧
      altIndexOf 2 1 (9 / 4 : ℚ) (-3 : ℚ) + ((1 : ℕ) : ℤ) < 4 * 2 * 1) ∧
    (List.replicate 8 (5 : ℕ)).get? (pixelIndexOf 2 1 (9 / 4 : ℚ) (-3 : ℚ) + ((1 : ℕ) : ℤ)).toNat =
      some (readByte (List.replicate 8 (5 : ℕ)) (pixelIndexOf 2 1 (9 / 4 : ℚ) (-3 : ℚ) + ((1 : ℕ) : ℤ))) ∧
    (List.replicate 8 (5 : ℕ)).get? (altIndexOf 2 1 (9 / 4 : ℚ) (-3 : ℚ) + ((1 : ℕ) : ℤ)).toNat =
      some (readByte (List.replicate 8 (5 : ℕ)) (altIndexOf 2 1 (9 / 4 : ℚ) (-3 : ℚ) + ((1 : ℕ) : ℤ)))) :=
  ⟨by decide, by decide, by decide, by decide,
    c10_amended_in_bounds 2 1 (by decide) (by decide)
      (List.replicate 8 (5 : ℕ)) (by decide) (9 / 4) (-3) 1 (by decide)⟩

/-- Claim C1, amended: for a uniform gray `(128, 128, 128)` image with
contrast `1`, every cell samples `(128, 128, 128)` and has contrasted
luminance `128`, intensity `(1 - 128/255) ^ 0.65 ≈ 0.636` (not `0.706`),
weight `681` (not `724`) and alpha `≈ 0.800` (not `0.838`), the approximate
values within `±0.01`. -/
theorem c1_uniform_gray_values (w h : ℕ) (hw : 1 ≤ w) (hh : 1 ≤ h) (x y : ℚ) :
    sampleRGB (uniformGrayBuf w h) w h x y = (128, 128, 128) ∧
    contrastedOf 128 128 128 1 = 128 ∧
    |intensityOf 128 128 128 1 - 0.636| ≤ 0.01 ∧
    weightOf 128 128 128 1 = 681 ∧
    |alphaOf 128 128 128 1 - 0.8| ≤ 0.01 := by
  have hlb := grayPow_lb
  have hub := grayPow_ub
  refine ⟨uniformGray_sample w h hw hh x y, contrasted_gray, ?_, ?_, ?_⟩
  · rw [intensity_gray_eq, abs_le]
    constructor <;> linarith
  · unfold weightOf
    rw [intensity_gray_eq, round_eq, Int.floor_eq_iff]
    constructor <;> push_cast <;> linarith
  · unfold alphaOf
    rw [intensity_gray_eq, abs_le]
    constructor <;> linarith

/-- Counterexample to C1 as stated: at the uniform gray input the sampled
colour is `(128, 128, 128)`, but the intensity is not within `±0.01` of the
claimed `0.706` (it is below `0.6358`), so the claimed triple
(intensity `≈ 0.706`, weight `724`, alpha `≈ 0.838`) fails. -/
theorem c1_counterexample :
    sampleRGB (uniformGrayBuf 100 100) 100 100 0 0 = (128, 128, 128) ∧
    ¬(|intensityOf 128 128 128 1 - 0.706| ≤ 0.01 ∧
      weightOf 128 128 128 1 = 724 ∧
      |alphaOf 128 128 128 1 - 0.838| ≤ 0.01) := by
  refine ⟨uniformGray_sample 100 100 (by norm_num) (by norm_num) 0 0, ?_⟩
  rintro ⟨habs, -, -⟩
  rw [intensity_gray_eq, abs_le] at habs
  have hub := grayPow_ub
  linarith [habs.1]

/-- Witness for the amended C1 at the concrete 100×100 uniform gray image. -/
theorem c1_witness :
    1 ≤ 100 ∧
    (sampleRGB (uniformGrayBuf 100 100) 100 100 3 5 = (128, 128, 128) ∧
     contrastedOf 128 128 128 1 = 128 ∧
     |intensityOf 128 128 128 1 - 0.636| ≤ 0.01 ∧
     weightOf 128 128 128 1 = 681 ∧
     |alphaOf 128 128 128 1 - 0.8| ≤ 0.01) :=
  ⟨by decide, c1_uniform_gray_values 100 100 (by decide) (by decide) 3 5⟩

theorem contrasted_bounds (r g b ct : ℝ) :
    0 ≤ contrastedOf r g b ct ∧ contrastedOf r g b ct ≤ 255 := by
  unfold contrastedOf clamp
  exact ⟨le_min (le_max_right _ _) (by norm_num), min_le_right _ _⟩

theorem intensity_bounds (r g b ct : ℝ) :
    0 ≤ intensityOf r g b ct ∧ intensityOf r g b ct ≤ 1 := by
  obtain ⟨h0, h1⟩ := contrasted_bounds r g b ct
  unfold intensityOf
  constructor
  · exact Real.rpow_nonneg (by linarith) _
  · exact Real.rpow_le_one (by linarith) (by linarith) (by norm_num)

/-- Claim C2: for every sampled colour with channels in `[0, 255]`, every
contrast, font size and scale, the cell styling follows the exact source
formulas, and consequently the weight lies in `[300, 900]` and the alpha in
`[0.45, 1]`. -/
theorem c2_styling_formulas (r g b contrast fontSize scale : ℝ)
    (hr0 : 0 ≤ r) (hr1 : r ≤ 255) (hg0 : 0 ≤ g) (hg1 : g ≤ 255)
    (hb0 : 0 ≤ b) (hb1 : b ≤ 255) :
    luminanceOf r g b = 0.2126 * r + 0.7152 * g + 0.0722 * b ∧
    contrastedOf r g b contrast =
      clamp ((luminanceOf r g b - 128) * contrast + 128) 0 255 ∧
    intensityOf r g b contrast =
      (1 - contrastedOf r g b contrast / 255) ^ (0.65 : ℝ) ∧
    weightOf r g b contrast = round (300 + intensityOf r g b contrast * 600) ∧
    glyphSizeOf fontSize scale r g b contrast =
      (fontSize * scale) * (0.85 + intensityOf r g b contrast * 0.8) ∧
    alphaOf r g b contrast = 0.45 + intensityOf r g b contrast * 0.55 ∧
    (300 ≤ weightOf r g b contrast ∧ weightOf r g b contrast ≤ 900) ∧
    (0.45 ≤ alphaOf r g b contrast ∧ alphaOf r g b contrast ≤ 1) := by
  obtain ⟨hi0, hi1⟩ := intensity_bounds r g b contrast
  refine ⟨rfl, rfl, rfl, rfl, rfl, rfl, ⟨?_, ?_⟩, ⟨?_, ?_⟩⟩
  · unfold weightOf
    rw [round_eq, Int.le_floor]
    push_cast
    linarith
  · unfold weightOf
    rw [round_eq]
    have hlt : ⌊300 + intensityOf r g b contrast * 600 + 1 / 2⌋ < 901 := by
      rw [Int.floor_lt]
      push_cast
      linarith
    omega
  · unfold alphaOf
    linarith
  · unfold alphaOf
    linarith

/-- Witness for C2 at the concrete mid-gray sample with contrast `1`. -/
theorem c2_witness :
    (0 : ℝ) ≤ 128 ∧ (128 : ℝ) ≤ 255 ∧
    (luminanceOf 128 128 128 = 0.2126 * 128 + 0.7152 * 128 + 0.0722 * 128 ∧
     contrastedOf 128 128 128 1 =
       clamp ((luminanceOf 128 128 128 - 128) * 1 + 128) 0 255 ∧
     intensityOf 128 128 128 1 =
       (1 - contrastedOf 128 128 128 1 / 255) ^ (0.65 : ℝ) ∧
     weightOf 128 128 128 1 = round (300 + intensityOf 128 128 128 1 * 600) ∧
     glyphSizeOf 18 1 128 128 128 1 =
       (18 * 1) * (0.85 + intensityOf 128 128 128 1 * 0.8) ∧
     alphaOf 128 128 128 1 = 0.45 + intensityOf 128 128 128 1 * 0.55 ∧
     (300 ≤ weightOf 128 128 128 1 ∧ weightOf 128 128 128 1 ≤ 900) ∧
     (0.45 ≤ alphaOf 128 128 128 1 ∧ alphaOf 128 128 128 1 ≤ 1)) :=
  ⟨by norm_num, by norm_num,
    c2_styling_formulas 128 128 128 1 18 1 (by norm_num) (by norm_num)
      (by norm_num) (by norm_num) (by norm_num) (by norm_num)⟩

theorem underlay_drawn_mem (canvas image : Option Unit) (imgW imgH pw : ℕ)
    (s : CanvasSettings) (scale detailBoost : ℚ) (buf : List ℕ)
    (lyrics : List Char) (hc : canvas ≠ none) (hi : image ≠ none)
    (hw : imgW ≠ 0) (hh : imgH ≠ 0) :
    DrawOp.drawImage s.underlay (baseWidthOf pw scale)
        (baseHeightOf pw imgW imgH scale) ∈
      renderToCanvas canvas image imgW imgH pw s scale detailBoost buf lyrics := by
  unfold renderToCanvas
  rw [if_neg (by push_neg; exact ⟨hc, hi, hw, hh⟩)]
  exact List.mem_cons_of_mem _ (List.mem_cons_of_mem _
    (List.mem_cons_of_mem _ (List.mem_cons_self _ _)))

/-- Claim C3, amended: whenever the render's preconditions hold, the source
image is composited beneath the glyphs at global alpha equal to the underlay
setting unconditionally — also when `underlay = 0`, in which case the draw is
issued at alpha `0` and so has no visible effect. -/
theorem c3_underlay_always_drawn (canvas image : Option Unit)
    (imgW imgH pw : ℕ) (s : CanvasSettings) (scale detailBoost : ℚ)
    (buf : List ℕ) (lyrics : List Char) (hc : canvas ≠ none)
    (hi : image ≠ none) (hw : imgW ≠ 0) (hh : imgH ≠ 0) :
    DrawOp.drawImage s.underlay (baseWidthOf pw scale)
        (baseHeightOf pw imgW imgH scale) ∈
      renderToCanvas canvas image imgW imgH pw s scale detailBoost buf lyrics :=
  underlay_drawn_mem canvas image imgW imgH pw s scale detailBoost buf lyrics
    hc hi hw hh

/-- Counterexample to C3 as stated: with `underlay = 0` the render still
issues the underlay compositing command for the source image, so "when
underlay = 0 no underlay compositing is performed" is false. -/
theorem c3_counterexample :
    (⟨18, 1.2, 1, false, 0⟩ : CanvasSettings).underlay = 0 ∧
    DrawOp.drawImage 0 720 720 ∈
      renderToCanvas (some ()) (some ()) 10 10 720 ⟨18, 1.2, 1, false, 0⟩
        1 0.7 [] [] := by
  refine ⟨rfl, ?_⟩
  have h := underlay_drawn_mem (some ()) (some ()) 10 10 720
    ⟨18, 1.2, 1, false, 0⟩ 1 0.7 [] [] (by simp) (by simp) (by omega) (by omega)
  have hbw : baseWidthOf 720 1 = 720 := by norm_num [baseWidthOf]
  have hbh : baseHeightOf 720 10 10 1 = 720 := by norm_num [baseHeightOf]
  rw [hbw, hbh] at h
  exact h

/-- Witness for the amended C3 at a concrete render with `underlay = 0.08`. -/
theorem c3_witness :
    (some () : Option Unit) ≠ none ∧ (10 : ℕ) ≠ 0 ∧
    DrawOp.drawImage (⟨18, 1.2, 1, false, 0.08⟩ : CanvasSettings).underlay
        (baseWidthOf 720 1) (baseHeightOf 720 10 10 1) ∈
      renderToCanvas (some ()) (some ()) 10 10 720 ⟨18, 1.2, 1, false, 0.08⟩
        1 0.7 [] [] :=
  ⟨by simp, by omega,
    c3_underlay_always_drawn (some ()) (some ()) 10 10 720
      ⟨18, 1.2, 1, false, 0.08⟩ 1 0.7 [] [] (by simp) (by simp) (by omega)
      (by omega)⟩

end LyricFace
